import Mathlib

/-!
# Verification of the video-builder overlay/composition core

Shallow embedding, in Lean 4, of the algorithmic core of the
`video-builder` backend: interval merging and audio segment stripping
(`app/utils/audio_enhancer.py`), easing curves (`app/utils/easing.py`),
the animation windows and input-stream bookkeeping of the announcement
template (`app/api/v1/announcement.py`), QR-visibility interval
computation (`app/api/v1/concatenate.py`), the watermark layer policy
(`app/utils/watermark_overlay.py`), overlay generation fallback, and
the per-request scratch-directory cleanup policy of each endpoint.

Times and durations are embedded as rationals (the Python source uses
floats only on exactly representable decimal constants and on probed
values treated symbolically here); millisecond positions in audio
tracks are embedded as integers, matching the `int` ranges the Python
code manipulates.
-/

namespace VideoBuilder

/-! ## `merge_ranges` (audio_enhancer.py, lines 188-208)

Python source:
```
sanitized = [(max(0, start), max(max(0, start), end)) for start, end in ranges if end > start]
if not sanitized: return []
sanitized.sort(key=lambda rng: rng[0])
merged = []
current_start, current_end = sanitized[0]
for start, end in sanitized[1:]:
    if start <= current_end:
        current_end = max(current_end, end)
        continue
    merged.append((current_start, current_end))
    current_start, current_end = start, end
merged.append((current_start, current_end))
return merged
```
-/

/-- One millisecond range, as the Python `Tuple[int, int]`. -/
abbrev Range := Int × Int

/-- The list-comprehension on the first line of `merge_ranges`:
drop ranges with `end <= start`, clamp the rest to nonnegative values. -/
def sanitizeRanges (ranges : List Range) : List Range :=
  (ranges.filter fun r => r.1 < r.2).map fun r => (max 0 r.1, max (max 0 r.1) r.2)

/-- The start-ordering used by `sanitized.sort(key=lambda rng: rng[0])`. -/
def rangeLE (a b : Range) : Prop := a.1 ≤ b.1

instance : DecidableRel rangeLE := fun a b => inferInstanceAs (Decidable (a.1 ≤ b.1))

instance : IsTotal Range rangeLE := ⟨fun a b => Int.le_total a.1 b.1⟩

instance : IsTrans Range rangeLE := ⟨fun _ _ _ => Int.le_trans⟩

/-- The accumulation loop of `merge_ranges`: `cur` is the running
`(current_start, current_end)` pair, the argument list is `sanitized[1:]`. -/
def mergeLoop : Range → List Range → List Range
  | cur, [] => [cur]
  | cur, r :: rest =>
      if r.1 ≤ cur.2 then mergeLoop (cur.1, max cur.2 r.2) rest
      else cur :: mergeLoop r rest

/-- Embedding of `merge_ranges` from `audio_enhancer.py`. -/
def merge_ranges (ranges : List Range) : List Range :=
  match (sanitizeRanges ranges).insertionSort rangeLE with
  | [] => []
  | first :: rest => mergeLoop first rest

/-! ## `strip_segments` (audio_enhancer.py, lines 211-234)

Python source:
```
if not ranges: return audio
total_duration = len(audio)
cleaned = AudioSegment.empty()
cursor = 0
for start, end in merge_ranges(ranges):
    start_clamped = max(0, min(start, total_duration))
    end_clamped = max(start_clamped, min(end, total_duration))
    if start_clamped > cursor:
        cleaned += audio[cursor:start_clamped]
    cursor = max(cursor, end_clamped)
if cursor < total_duration:
    cleaned += audio[cursor:]
return cleaned if len(cleaned) >= 1000 else audio
```
An `AudioSegment` is embedded as the list of its millisecond samples;
`audio[a:b]` is the Python slice (the code only slices with
`0 ≤ a ≤ b ≤ len(audio)`). -/

/-- Python slice `audio[a:b]` for `0 ≤ a ≤ b`. -/
def pySlice {α : Type} (l : List α) (a b : Int) : List α :=
  (l.drop a.toNat).take (b - a).toNat

/-- The `for start, end in merge_ranges(ranges)` loop of
`strip_segments`, including the trailing `audio[cursor:]` append. -/
def cutRanges {α : Type} (audio : List α) (L : Int) : Int → List Range → List α
  | cursor, [] => if cursor < L then pySlice audio cursor L else []
  | cursor, r :: rest =>
      let sc := max 0 (min r.1 L)
      let ec := max sc (min r.2 L)
      (if sc > cursor then pySlice audio cursor sc else []) ++
        cutRanges audio L (max cursor ec) rest

/-- Embedding of `strip_segments` from `audio_enhancer.py`. -/
def strip_segments {α : Type} (audio : List α) (ranges : List Range) : List α :=
  if ranges = [] then audio
  else
    let cleaned := cutRanges audio (audio.length : Int) 0 (merge_ranges ranges)
    if 1000 ≤ cleaned.length then cleaned else audio

/-- The in-bounds coverage (in ms) of a disjoint list of clamp-ready
ranges inside a track of length `L`. -/
def clampedCoverage (L : Int) (rs : List Range) : Int :=
  (rs.map fun r => min r.2 L - min r.1 L).sum

/-! ## Easing engine (easing.py, lines 52-76)

`get_easing_expression` returns FFmpeg expression strings; each string
denotes a function of the normalized time `t`.  The denotations are
embedded below over an ordered field, with the two transcendental
operations the render engine supplies (`cos` and base-2 exponentiation)
passed in as parameters; theorems instantiate them with `Real.cos` and
`Real.rpow 2`:

```
"linear": t
"ease_out_cubic": 1-pow(1-t,3)
"ease_out_quad": 1-pow(1-t,2)
"ease_out_expo": if(eq(t,1),1,1-pow(2,-10*t))
"ease_in_out_sine": (1-cos(t*PI))/2
"ease_out_back": 1+2.70158*pow(t-1,3)+1.70158*pow(t-1,2)
```
-/

/-- The `EasingType` literal union of `easing.py`. -/
inductive EasingType where
  | linear
  | ease_out_cubic
  | ease_out_quad
  | ease_out_expo
  | ease_in_out_sine
  | ease_out_back
  deriving DecidableEq

/-- Value at normalized time `t` of the expression
`get_easing_expression` returns for each easing kind. -/
def easeValue {K : Type} [LinearOrderedField K] [DecidableEq K]
    (cos : K → K) (exp2 : K → K) (pi : K) : EasingType → K → K
  | .linear, t => t
  | .ease_out_cubic, t => 1 - (1 - t) ^ 3
  | .ease_out_quad, t => 1 - (1 - t) ^ 2
  | .ease_out_expo, t => if t = 1 then 1 else 1 - exp2 (-10 * t)
  | .ease_in_out_sine, t => (1 - cos (t * pi)) / 2
  | .ease_out_back, t =>
      1 + (270158 / 100000) * (t - 1) ^ 3 + (170158 / 100000) * (t - 1) ^ 2

/-! ## Announcement template animation windows (announcement.py)

From `render_announcement` (times in seconds, embedded as rationals):
```
image_slide_in_start = 0.3
image_slide_in_end = 0.9
image_slide_out_start = max(1.0, audio_duration - 0.5)
image_slide_out_end = audio_duration
wave_slide_start = 0.1
wave_slide_end = wave_slide_start + 0.5
highlight_slide_start = 0.2
highlight_slide_end = highlight_slide_start + 0.6
overlay_end = max(1.0, audio_duration - 0.5)
text_slide_in_start = 0.5
text_slide_in_end = text_slide_in_start + 0.6
text_slide_out_start = overlay_end - 0.3
text_slide_out_end = overlay_end
```
and from `render_intro_video` (intro.py line 67-68):
```
overlay_start = 0.5
overlay_end = max(1.0, video_duration - 0.5)
```
-/

/-- Window `(image_slide_in_start, image_slide_in_end)` of announcement.py. -/
def image_slide_in_window : ℚ × ℚ := (0.3, 0.9)

/-- Window `(image_slide_out_start, image_slide_out_end)` of announcement.py. -/
def image_slide_out_window (d : ℚ) : ℚ × ℚ := (max 1 (d - 0.5), d)

/-- Window `(wave_slide_start, wave_slide_end)` of announcement.py. -/
def wave_slide_window : ℚ × ℚ := (0.1, 0.1 + 0.5)

/-- Window `(highlight_slide_start, highlight_slide_end)` of announcement.py. -/
def highlight_slide_window : ℚ × ℚ := (0.2, 0.2 + 0.6)

/-- Value `overlay_end = max(1.0, audio_duration - 0.5)` of announcement.py. -/
def announcement_overlay_end (d : ℚ) : ℚ := max 1 (d - 0.5)

/-- Window `(text_slide_in_start, text_slide_in_end)` of announcement.py. -/
def text_slide_in_window : ℚ × ℚ := (0.5, 0.5 + 0.6)

/-- Window `(text_slide_out_start, text_slide_out_end)` of announcement.py. -/
def text_slide_out_window (d : ℚ) : ℚ × ℚ :=
  (announcement_overlay_end d - 0.3, announcement_overlay_end d)

/-- All entrance/exit animation windows the announcement render
computes for a target duration `d`. -/
def announcementWindows (d : ℚ) : List (ℚ × ℚ) :=
  [wave_slide_window, image_slide_in_window, image_slide_out_window d,
   highlight_slide_window, text_slide_in_window, text_slide_out_window d]

/-- Window `(overlay_start, overlay_end)` of intro.py. -/
def introOverlayWindow (d : ℚ) : ℚ × ℚ := (0.5, max 1 (d - 0.5))

/-! ## Input-stream bookkeeping of `render_announcement` (announcement.py)

With a text overlay (lines 187-202) the ffmpeg invocation supplies
image (0), overlay PNG (1), Wave.png (2), highlight.png (3), audio (4);
without one (lines 205-219) it supplies image (0), Wave.png (1),
highlight.png (2), audio (3).  The filter graph assembled in
`filter_parts` (lines 100-184) references `[0:v]` as the image,
`[2:v]` as the wave (label `scaled_wave`), `[3:v]` as the highlight
(label `scaled_highlight`), `[1:v]` as the overlay PNG (with-overlay
branch only), and the `-map` flag takes audio from `4:a`
(with overlay) or `3:a` (without). -/

/-- The physical artifacts `render_announcement` feeds to the encoder. -/
inductive StreamSrc where
  | image
  | overlayPng
  | wave
  | highlight
  | audioTrack
  deriving DecidableEq

/-- Ordered ffmpeg input list per branch of `render_announcement`. -/
def announcementInputs (hasOverlay : Bool) : List StreamSrc :=
  if hasOverlay then [.image, .overlayPng, .wave, .highlight, .audioTrack]
  else [.image, .wave, .highlight, .audioTrack]

/-- Stream indices referenced by the assembled filter graph and `-map`
flags, each paired with the artifact that reference is meant to address
(read off the filter labels `scaled_image`, `scaled_wave`,
`scaled_highlight`, the overlay input, and the audio map). -/
def announcementStreamRefs (hasOverlay : Bool) : List (Nat × StreamSrc) :=
  [(0, .image), (2, .wave), (3, .highlight)] ++
  (if hasOverlay then [(1, .overlayPng)] else []) ++
  [(if hasOverlay then 4 else 3, .audioTrack)]

/-- Every stream reference addresses the input actually supplied at
that position. -/
def streamRefsCorrect (refs : List (Nat × StreamSrc)) (inputs : List StreamSrc) : Prop :=
  ∀ r ∈ refs, inputs[r.1]? = some r.2

instance (refs : List (Nat × StreamSrc)) (inputs : List StreamSrc) :
    Decidable (streamRefsCorrect refs inputs) :=
  inferInstanceAs (Decidable (∀ r ∈ refs, inputs[r.1]? = some r.2))

/-! ## QR-visibility intervals (concatenate.py, lines 340-369)

```
def find_duration(order):
    for meta in segment_metadata:
        if meta["order"] == order and meta["duration"]:
            return meta["duration"]
    return None
intro_duration = find_duration(1)
closing_duration = find_duration(6)
if intro_duration:
    qr_intervals.append((0.0, intro_duration))
if closing_duration and final_video_duration:
    closing_start = max(0.0, final_video_duration - closing_duration)
    qr_intervals.append((closing_start, final_video_duration))
```
Durations are embedded as rationals; a `None` duration is `none`, and
Python float truthiness makes `0.0` falsy. -/

/-- Python truthiness of an optional duration (`None` and `0.0` falsy). -/
def truthyDuration : Option ℚ → Bool
  | none => false
  | some d => d != 0

/-- The inner `find_duration` helper of `concatenate_videos_multipart`;
metadata entries are `(order, probed duration)`. -/
def find_duration (metadata : List (Int × Option ℚ)) (order : Int) : Option ℚ :=
  match metadata with
  | [] => none
  | m :: rest =>
      if m.1 = order ∧ truthyDuration m.2 then m.2 else find_duration rest order

/-- The `qr_intervals` computation of `concatenate_videos_multipart`. -/
def qr_intervals (metadata : List (Int × Option ℚ)) (finalDuration : Option ℚ) :
    List (ℚ × ℚ) :=
  (match find_duration metadata 1 with
   | some di => [((0 : ℚ), di)]
   | none => []) ++
  (match find_duration metadata 6, finalDuration with
   | some dc, some fd =>
       if truthyDuration (some fd) then [(max 0 (fd - dc), fd)] else []
   | _, _ => [])

/-! ## Scratch-directory cleanup policy (announcement.py, closing.py, concatenate.py)

`render_closing`, `concatenate_videos` and `concatenate_videos_multipart`
call `cleanup_temp_path(temp_dir)` immediately before raising on
timeout, non-zero exit, missing output, or any unexpected exception,
and on success schedule it as a background task that runs after the
`FileResponse` has streamed.  In `render_announcement` the `finally`
block is `pass` ("The temp directory will be cleaned up by the OS
eventually") and its success path schedules nothing. -/

/-- Terminal outcome of one render/concatenation request. -/
inductive RequestOutcome where
  | success
  | encoderTimeout
  | encoderFailed
  | outputMissing
  | unexpectedError
  deriving DecidableEq

/-- What a request does about its scratch directory. -/
inductive CleanupAction where
  | skipped
  | immediate
  | deferredAfterResponse
  deriving DecidableEq

/-- Cleanup behaviour of `render_announcement` (announcement.py lines
243-250): the `finally` block is `pass` on every path. -/
def announcementCleanup : RequestOutcome → CleanupAction := fun _ => .skipped

/-- Cleanup behaviour of `render_closing` (closing.py lines 199-249). -/
def closingCleanup : RequestOutcome → CleanupAction
  | .success => .deferredAfterResponse
  | _ => .immediate

/-- Cleanup behaviour of `concatenate_videos` (concatenate.py lines
138-179). -/
def concatenateCleanup : RequestOutcome → CleanupAction
  | .success => .deferredAfterResponse
  | _ => .immediate

/-- Cleanup behaviour of `concatenate_videos_multipart` (concatenate.py
lines 315-408). -/
def concatenateMultipartCleanup : RequestOutcome → CleanupAction
  | .success => .deferredAfterResponse
  | _ => .immediate

/-- Modelled from the spec: the required cleanup policy — deferred
until after transmission on success, immediate on any failure. -/
def specCleanupPolicy : RequestOutcome → CleanupAction
  | .success => .deferredAfterResponse
  | _ => .immediate

/-! ## Overlay-generation fallback (announcement.py lines 59-80,
closing.py lines 59-82)

Both endpoints wrap overlay rasterization in `try/except Exception`,
and additionally treat a missing or zero-byte output file as "no
overlay"; in every failure case they set `has_overlay = False`,
`overlay_path = None`, log a warning and continue. -/

/-- What the rasterizer call did: raised, or produced a path whose file
may be missing or empty. -/
inductive OverlayOutcome where
  | raised (msg : String)
  | generated (path : String) (fileExists : Bool) (sizeBytes : Nat)
  deriving DecidableEq

/-- The overlay guard of `render_announcement` (lines 63-80): the
`Except` error case would be a propagated exception — the `try/except`
ensures it never occurs. -/
def announcementOverlayGuard : OverlayOutcome → Except String (Option String)
  | .raised _ => .ok none
  | .generated path fileExists sizeBytes =>
      if fileExists ∧ sizeBytes ≠ 0 then .ok (some path) else .ok none

/-- The overlay guard of `render_closing` (lines 63-82), identical in
structure. -/
def closingOverlayGuard : OverlayOutcome → Except String (Option String)
  | .raised _ => .ok none
  | .generated path fileExists sizeBytes =>
      if fileExists ∧ sizeBytes ≠ 0 then .ok (some path) else .ok none

/-- Which encoder invocation the announcement render proceeds with,
given the guarded overlay result (lines 164-219). -/
def announcementEncoderInputs : Option String → List StreamSrc
  | some _ => announcementInputs true
  | none => announcementInputs false

/-- Ordered ffmpeg input list per branch of `render_closing`
(closing.py lines 132-137 and 154-158): audio (0), Wave.png (1),
highlight.png (2), and in the with-overlay branch the overlay PNG (3). -/
def closingInputs (hasOverlay : Bool) : List StreamSrc :=
  if hasOverlay then [.audioTrack, .wave, .highlight, .overlayPng]
  else [.audioTrack, .wave, .highlight]

/-- Stream indices the closing filter graph and `-map` flags reference,
paired with the artifact each is meant to address: `[1:v]` as the wave
(line 108), `[2:v]` as the highlight (line 117), `[3:v]` as the overlay
PNG (line 127, with-overlay branch only), audio mapped from `0:a`
(lines 140 and 161). -/
def closingStreamRefs (hasOverlay : Bool) : List (Nat × StreamSrc) :=
  [(1, .wave), (2, .highlight)] ++
  (if hasOverlay then [(3, .overlayPng)] else []) ++
  [(0, .audioTrack)]

/-! ## Announcement overlay rasterizer (announcement_overlay.py lines 52-128)

`_create_announcement_overlay` always returns the output path of a
saved PNG; its canvas height is chosen from the style presets by which
text fields are non-empty.  `render_announcement` (lines 59-62) only
invokes the generator when `bool(title or description)` is true. -/

/-- Constant `AnnouncementStyles.BASE_WIDTH` (styles.py line 173). -/
def ANNOUNCEMENT_BASE_WIDTH : Nat := 1600

/-- Constant `AnnouncementStyles.BASE_HEIGHT_MIN` (styles.py line 174). -/
def ANNOUNCEMENT_BASE_HEIGHT_MIN : Nat := 1080

/-- Constant `AnnouncementStyles.BASE_HEIGHT_SINGLE` (styles.py line 175). -/
def ANNOUNCEMENT_BASE_HEIGHT_SINGLE : Nat := 1080

/-- Constant `AnnouncementStyles.BASE_HEIGHT_BOTH` (styles.py line 176). -/
def ANNOUNCEMENT_BASE_HEIGHT_BOTH : Nat := 1080

/-- The artifact `_create_announcement_overlay` produces. -/
structure AnnouncementOverlayArtifact where
  width : Nat
  height : Nat
  outputPath : String
  deriving DecidableEq

/-- Embedding of `_create_announcement_overlay(title, description, output_path)`:
canvas preset selection and the returned artifact. -/
def create_announcement_overlay (title description outputPath : String) :
    AnnouncementOverlayArtifact :=
  { width := ANNOUNCEMENT_BASE_WIDTH
    height :=
      if title ≠ "" ∧ description ≠ "" then ANNOUNCEMENT_BASE_HEIGHT_BOTH
      else if title ≠ "" ∨ description ≠ "" then ANNOUNCEMENT_BASE_HEIGHT_SINGLE
      else ANNOUNCEMENT_BASE_HEIGHT_MIN
    outputPath := outputPath }

/-- Embedding of `generate_announcement_overlay_png`: always hands back the artifact
`_create_announcement_overlay` returns — never `None`. -/
def generate_announcement_overlay_png (title description : String) :
    Option AnnouncementOverlayArtifact :=
  some (create_announcement_overlay title description "overlay.png")

/-- Flag `has_overlay = bool(title or description)` at announcement.py line 61. -/
def announcementRequestsOverlay (title description : String) : Bool :=
  title != "" || description != ""

/-- The overlay the announcement render ends up with: the generator is
only invoked when some text field is non-empty. -/
def announcementOverlayForRequest (title description : String) :
    Option AnnouncementOverlayArtifact :=
  if announcementRequestsOverlay title description then
    generate_announcement_overlay_png title description
  else none

/-! ## Watermark layer policy (watermark_overlay.py lines 97-271)

```
qr_overlay_active = qr_overlay_intervals is None or len(qr_overlay_intervals) > 0
if qr_overlay_active:
    ... search banner; if not found: raise FileNotFoundError(...)
... logo missing => "watermark will be text-only" (warning only)
```
-/

/-- The hard failure `apply_watermark_to_video` can raise. -/
inductive WatermarkError where
  | qrBannerMissing
  deriving DecidableEq

/-- Which optional layers the produced filter graph carries. -/
structure WatermarkPlan where
  logoLayer : Bool
  qrLayer : Bool
  deriving DecidableEq

/-- Flag `qr_overlay_active` at watermark_overlay.py line 168. -/
def qr_overlay_active (qrIntervals : Option (List (ℚ × ℚ))) : Bool :=
  qrIntervals.isNone || 0 < (qrIntervals.getD []).length

/-- Layer/failure decision logic of `apply_watermark_to_video`:
`logoFound` and `qrBannerFound` say whether the asset search (lines
147-161 and 170-180) found the respective file. -/
def apply_watermark_to_video (logoFound qrBannerFound : Bool)
    (qrIntervals : Option (List (ℚ × ℚ))) : Except WatermarkError WatermarkPlan :=
  if qr_overlay_active qrIntervals then
    if qrBannerFound then .ok { logoLayer := logoFound, qrLayer := true }
    else .error .qrBannerMissing
  else .ok { logoLayer := logoFound, qrLayer := false }

/-! ## Theorems about `merge_ranges` and `strip_segments` -/

example : merge_ranges [(5, 9), (0, 3), (2, 6)] = [(0, 9)] := by decide
example : merge_ranges [(0, 3), (3, 5)] = [(0, 5)] := by decide
example : merge_ranges [(0, 3), (4, 5)] = [(0, 3), (4, 5)] := by decide
example : merge_ranges [(-5, -1)] = [(0, 0)] := by decide
example : merge_ranges [(0, 0)] = [] := by decide

/-! Structural invariants of `merge_ranges` output. -/

/-- Every range produced by `mergeLoop` keeps `0 ≤ start ≤ end`,
starts no earlier than the running start, and the output is strictly
separated (each range ends before the next begins). -/
theorem mergeLoop_invariants (l : List Range) :
    ∀ cur : Range, 0 ≤ cur.1 → cur.1 ≤ cur.2 →
    (∀ r ∈ l, 0 ≤ r.1 ∧ r.1 ≤ r.2) →
    (∀ r ∈ l, cur.1 ≤ r.1) →
    l.Pairwise rangeLE →
    (∀ r ∈ mergeLoop cur l, 0 ≤ r.1 ∧ r.1 ≤ r.2) ∧
    (∀ r ∈ mergeLoop cur l, cur.1 ≤ r.1) ∧
    (mergeLoop cur l).Pairwise (fun a b => a.2 < b.1) := by
  induction l with
  | nil =>
      intro cur h0 hle _ _ _
      refine ⟨?_, ?_, ?_⟩ <;> simp [mergeLoop]
      · exact ⟨h0, hle⟩
  | cons r rest ih =>
      intro cur h0 hle hall hge hpw
      have hr := hall r (by simp)
      have hrest : ∀ x ∈ rest, 0 ≤ x.1 ∧ x.1 ≤ x.2 := fun x hx => hall x (by simp [hx])
      have hpw' : rest.Pairwise rangeLE := (List.pairwise_cons.mp hpw).2
      have hhead : ∀ x ∈ rest, r.1 ≤ x.1 := fun x hx => (List.pairwise_cons.mp hpw).1 x hx
      by_cases hc : r.1 ≤ cur.2
      · have hge' : ∀ x ∈ rest, cur.1 ≤ x.1 := fun x hx =>
          le_trans (hge r (by simp)) (hhead x hx)
        have := ih (cur.1, max cur.2 r.2) h0 (le_trans hle (le_max_left _ _))
          hrest hge' hpw'
        simpa [mergeLoop, hc] using this
      · push_neg at hc
        have hge2 : ∀ x ∈ rest, r.1 ≤ x.1 := hhead
        have := ih r hr.1 hr.2 hrest hge2 hpw'
        obtain ⟨iv, ist, ipw⟩ := this
        refine ⟨?_, ?_, ?_⟩
        · intro x hx
          simp only [mergeLoop, if_neg (not_le.mpr hc), List.mem_cons] at hx
          rcases hx with rfl | hx
          · exact ⟨h0, hle⟩
          · exact iv x hx
        · intro x hx
          simp only [mergeLoop, if_neg (not_le.mpr hc), List.mem_cons] at hx
          rcases hx with rfl | hx
          · exact le_refl _
          · exact le_trans (hge r (by simp)) (ist x hx)
        · simp only [mergeLoop, if_neg (not_le.mpr hc)]
          refine List.pairwise_cons.mpr ⟨?_, ipw⟩
          intro x hx
          exact lt_of_lt_of_le hc (ist x hx)

/-- Every range in `merge_ranges` output satisfies `0 ≤ start ≤ end`,
and consecutive output ranges are strictly separated. -/
theorem merge_ranges_invariants (ranges : List Range) :
    (∀ r ∈ merge_ranges ranges, 0 ≤ r.1 ∧ r.1 ≤ r.2) ∧
    (merge_ranges ranges).Pairwise (fun a b => a.2 < b.1) := by
  unfold merge_ranges
  have hsan : ∀ r ∈ (sanitizeRanges ranges).insertionSort rangeLE, 0 ≤ r.1 ∧ r.1 ≤ r.2 := by
    intro r hr
    have hr' : r ∈ sanitizeRanges ranges := (List.perm_insertionSort rangeLE _).mem_iff.mp hr
    simp only [sanitizeRanges, List.mem_map, List.mem_filter] at hr'
    obtain ⟨x, _, rfl⟩ := hr'
    exact ⟨le_max_left _ _, le_max_left _ _⟩
  have hsorted : ((sanitizeRanges ranges).insertionSort rangeLE).Pairwise rangeLE :=
    List.sorted_insertionSort rangeLE _
  cases h : (sanitizeRanges ranges).insertionSort rangeLE with
  | nil => simp
  | cons first rest =>
      rw [h] at hsan hsorted
      have hfirst := hsan first (by simp)
      have := mergeLoop_invariants rest first hfirst.1 hfirst.2
        (fun x hx => hsan x (by simp [hx]))
        (fun x hx => (List.pairwise_cons.mp hsorted).1 x hx)
        (List.pairwise_cons.mp hsorted).2
      exact ⟨this.1, this.2.2⟩

/-- When `cur` and every pending range are strict (`start < end`),
every range `mergeLoop` emits is strict. -/
theorem mergeLoop_strict (l : List Range) :
    ∀ cur : Range, cur.1 < cur.2 → (∀ r ∈ l, r.1 < r.2) →
    ∀ r ∈ mergeLoop cur l, r.1 < r.2 := by
  induction l with
  | nil => intro cur hcur _ r hr; simp [mergeLoop] at hr; simpa [hr] using hcur
  | cons x rest ih =>
      intro cur hcur hall r hr
      by_cases hc : x.1 ≤ cur.2
      · simp only [mergeLoop, if_pos hc] at hr
        exact ih (cur.1, max cur.2 x.2)
          (lt_of_lt_of_le hcur (le_max_left cur.2 x.2))
          (fun y hy => hall y (by simp [hy])) r hr
      · simp only [mergeLoop, if_neg hc, List.mem_cons] at hr
        rcases hr with rfl | hr
        · exact hcur
        · exact ih x (hall x (by simp)) (fun y hy => hall y (by simp [hy])) r hr

/-- On an already-fully-merged list (strictly separated ranges),
`mergeLoop` emits the list unchanged. -/
theorem mergeLoop_of_separated (l : List Range) :
    ∀ cur : Range, (∀ r ∈ l, cur.2 < r.1) →
    l.Pairwise (fun a b => a.2 < b.1) →
    mergeLoop cur l = cur :: l := by
  induction l with
  | nil => intro cur _ _; simp [mergeLoop]
  | cons x rest ih =>
      intro cur hsep hpw
      have hx : cur.2 < x.1 := hsep x (by simp)
      rw [mergeLoop, if_neg (not_le.mpr hx)]
      rw [ih x (fun r hr => (List.pairwise_cons.mp hpw).1 r hr)
        (List.pairwise_cons.mp hpw).2]

/-- Idempotence: `merge_ranges` is idempotent on lists of ranges whose starts are
nonnegative (every range the audio pipeline produces is a millisecond
range with nonnegative endpoints). -/
theorem merge_ranges_idempotent_of_nonneg (ranges : List Range)
    (hpos : ∀ r ∈ ranges, 0 ≤ r.1) :
    merge_ranges (merge_ranges ranges) = merge_ranges ranges := by
  obtain ⟨hval, hsep⟩ := merge_ranges_invariants ranges
  -- with nonnegative starts, every merged range is strict
  have hstrict : ∀ r ∈ merge_ranges ranges, r.1 < r.2 := by
    unfold merge_ranges
    have hsan : ∀ r ∈ (sanitizeRanges ranges).insertionSort rangeLE, r.1 < r.2 := by
      intro r hr
      have hr' : r ∈ sanitizeRanges ranges := (List.perm_insertionSort rangeLE _).mem_iff.mp hr
      simp only [sanitizeRanges, List.mem_map, List.mem_filter, decide_eq_true_eq] at hr'
      obtain ⟨x, ⟨hxm, hxlt⟩, rfl⟩ := hr'
      have : (0 : Int) ≤ x.1 := hpos x hxm
      simp only [max_eq_right this]
      exact lt_of_lt_of_le hxlt (le_max_right _ _)
    cases h : (sanitizeRanges ranges).insertionSort rangeLE with
    | nil => simp
    | cons first rest =>
        rw [h] at hsan
        exact mergeLoop_strict rest first (hsan first (by simp))
          (fun x hx => hsan x (by simp [hx]))
  -- sanitizing the merged output changes nothing
  have hsanid : sanitizeRanges (merge_ranges ranges) = merge_ranges ranges := by
    unfold sanitizeRanges
    rw [List.filter_eq_self.mpr (fun r hr => by simpa using hstrict r hr)]
    have hmap : ∀ r ∈ merge_ranges ranges,
        (max 0 r.1, max (max 0 r.1) r.2) = id r := by
      intro r hr
      obtain ⟨h0, hle⟩ := hval r hr
      have h1 : max (0 : Int) r.1 = r.1 := max_eq_right h0
      rw [h1, max_eq_right hle, id]
    rw [List.map_congr_left hmap, List.map_id]
  -- the merged output is sorted, so sorting changes nothing
  have hsorted : (merge_ranges ranges).Sorted rangeLE := by
    refine List.Pairwise.imp_of_mem ?_ hsep
    intro a b ha _ hab
    exact le_of_lt (lt_of_le_of_lt (hval a ha).2 hab)
  conv_lhs => rw [merge_ranges, hsanid, hsorted.insertionSort_eq]
  cases h : merge_ranges ranges with
  | nil => rfl
  | cons first rest =>
      rw [h] at hsep
      show mergeLoop first rest = first :: rest
      rw [mergeLoop_of_separated rest first
        (fun r hr => (List.pairwise_cons.mp hsep).1 r hr)
        (List.pairwise_cons.mp hsep).2]

/-- Merging a single overlapping-or-adjacent pair of valid ranges
yields exactly one range, the hull of the pair. -/
theorem merge_ranges_pair (a b c d : Int)
    (ha : 0 ≤ a) (hab : a < b) (hc : 0 ≤ c) (hcd : c < d)
    (hover₁ : c ≤ b) (hover₂ : a ≤ d) :
    merge_ranges [(a, b), (c, d)] = [(min a c, max b d)] := by
  have hsan : sanitizeRanges [(a, b), (c, d)] = [(a, b), (c, d)] := by
    simp [sanitizeRanges, List.filter, hab, hcd,
      max_eq_right ha, max_eq_right hc,
      max_eq_right (le_of_lt hab), max_eq_right (le_of_lt hcd)]
  unfold merge_ranges
  rw [hsan]
  rcases le_or_lt a c with hac | hca
  · have hsort : ([(a, b), (c, d)] : List Range).insertionSort rangeLE
        = [(a, b), (c, d)] := by
      apply List.Sorted.insertionSort_eq
      simp [List.Sorted, rangeLE, hac]
    rw [hsort]
    show mergeLoop (a, b) [(c, d)] = [(min a c, max b d)]
    simp only [mergeLoop, if_pos hover₁]
    rw [min_eq_left hac]
  · have hsort : ([(a, b), (c, d)] : List Range).insertionSort rangeLE
        = [(c, d), (a, b)] := by
      simp only [List.insertionSort, List.orderedInsert]
      rw [if_neg (show ¬ rangeLE (a, b) (c, d) from not_le.mpr hca)]
    rw [hsort]
    show mergeLoop (c, d) [(a, b)] = [(min a c, max b d)]
    simp only [mergeLoop, if_pos hover₂]
    rw [min_eq_right (le_of_lt hca), max_comm b d]

theorem pySlice_length {α : Type} (l : List α) (a b : Int)
    (h0 : 0 ≤ a) (hab : a ≤ b) (hbL : b ≤ (l.length : Int)) :
    ((pySlice l a b).length : Int) = b - a := by
  simp only [pySlice, List.length_take, List.length_drop]
  omega

/-- Core accounting for the `strip_segments` loop: starting at a cursor
below every pending range, the kept samples number exactly the track
length minus the cursor minus the clamped coverage of the ranges. -/
theorem cutRanges_length {α : Type} (audio : List α) (ms : List Range) :
    ∀ cursor : Int, 0 ≤ cursor → cursor ≤ (audio.length : Int) →
    (∀ r ∈ ms, cursor ≤ r.1 ∧ 0 ≤ r.1 ∧ r.1 ≤ r.2) →
    ms.Pairwise (fun a b => a.2 ≤ b.1) →
    ((cutRanges audio (audio.length : Int) cursor ms).length : Int)
      = (audio.length : Int) - cursor - clampedCoverage (audio.length : Int) ms := by
  set L : Int := (audio.length : Int) with hL
  induction ms with
  | nil =>
      intro cursor h0 hcl _ _
      by_cases hc : cursor < L
      · rw [cutRanges, if_pos hc, pySlice_length audio cursor L h0 (le_of_lt hc) le_rfl]
        simp [clampedCoverage]
      · rw [cutRanges, if_neg hc]
        have : cursor = L := le_antisymm hcl (not_lt.mp hc)
        simp [clampedCoverage, this]
  | cons r rest ih =>
      intro cursor h0 hcl hall hpw
      obtain ⟨hge, hr0, hrle⟩ := hall r (by simp)
      have hL0 : (0 : Int) ≤ L := le_trans h0 hcl
      have hsc : max 0 (min r.1 L) = min r.1 L := max_eq_right (le_min hr0 hL0)
      have hscmin : min r.1 L ≤ min r.2 L := min_le_min_right L hrle
      have hec : max (max 0 (min r.1 L)) (min r.2 L) = min r.2 L := by
        rw [hsc]; exact max_eq_right hscmin
      have hcsc : cursor ≤ min r.1 L := le_min hge hcl
      have hcec : max cursor (min r.2 L) = min r.2 L :=
        max_eq_right (le_trans hcsc hscmin)
      have hrest : ∀ x ∈ rest, min r.2 L ≤ x.1 ∧ 0 ≤ x.1 ∧ x.1 ≤ x.2 := by
        intro x hx
        refine ⟨le_trans (min_le_left _ _) ((List.pairwise_cons.mp hpw).1 x hx), ?_, ?_⟩
        · exact (hall x (by simp [hx])).2.1
        · exact (hall x (by simp [hx])).2.2
      have hih := ih (min r.2 L) (le_trans h0 (le_trans hcsc hscmin))
        (min_le_right _ _) hrest (List.pairwise_cons.mp hpw).2
      rw [cutRanges]
      have hec' : max (min r.1 L) (min r.2 L) = min r.2 L := max_eq_right hscmin
      simp only [hsc, hec', hcec]
      by_cases hcut : min r.1 L > cursor
      · rw [if_pos hcut, List.length_append]
        push_cast
        rw [pySlice_length audio cursor (min r.1 L) h0 (le_of_lt hcut)
          (min_le_right _ _), hih]
        simp only [clampedCoverage, List.map_cons, List.sum_cons]
        ring
      · rw [if_neg hcut]
        have : cursor = min r.1 L := le_antisymm hcsc (not_lt.mp hcut)
        simp only [List.length_nil, List.nil_append, hih,
          clampedCoverage, List.map_cons, List.sum_cons]
        omega

/-- Length of `strip_segments` output before the 1-second floor check. -/
theorem strip_segments_cleaned_length {α : Type} (audio : List α) (ranges : List Range) :
    ((cutRanges audio (audio.length : Int) 0 (merge_ranges ranges)).length : Int)
      = (audio.length : Int)
        - clampedCoverage (audio.length : Int) (merge_ranges ranges) := by
  obtain ⟨hval, hsep⟩ := merge_ranges_invariants ranges
  have := cutRanges_length audio (merge_ranges ranges) 0 le_rfl (by positivity)
    (fun r hr => ⟨(hval r hr).1, (hval r hr).1, (hval r hr).2⟩)
    (hsep.imp fun h => le_of_lt h)
  simpa using this

example : strip_segments [0, 1, 2, 3, 4] [((1 : Int), 3)] = [0, 1, 2, 3, 4] := by decide
example : strip_segments ([0, 1, 2, 3, 4] : List Nat) [] = [0, 1, 2, 3, 4] := by decide

/-- C4 (counterexample): as universally stated, `merge_ranges` is not
idempotent: on `[(-5, -1)]` it returns the degenerate range `[(0, 0)]`,
and merging that output again drops it, giving `[]`. -/
theorem merge_ranges_idempotence_fails_on_negative_range :
    merge_ranges [((-5 : Int), -1)] = [(0, 0)] ∧
    merge_ranges (merge_ranges [((-5 : Int), -1)]) = [] ∧
    merge_ranges (merge_ranges [((-5 : Int), -1)]) ≠ merge_ranges [((-5 : Int), -1)] := by
  decide

/-- C4 (amended): `merge_ranges` is idempotent on every list of ranges
with nonnegative starts (every range the audio pipeline builds), and
merging any overlapping-or-adjacent pair of valid ranges yields
strictly fewer intervals covering exactly the union of the millisecond
points of the pair, none lost or duplicated. -/
theorem merge_ranges_idempotent_and_merges_pairs :
    (∀ ranges : List Range, (∀ r ∈ ranges, 0 ≤ r.1) →
      merge_ranges (merge_ranges ranges) = merge_ranges ranges) ∧
    (∀ a b c d : Int, 0 ≤ a → a < b → 0 ≤ c → c < d → c ≤ b → a ≤ d →
      (merge_ranges [(a, b), (c, d)]).length < 2 ∧
      ∀ x : Int,
        (∃ r ∈ merge_ranges [(a, b), (c, d)], r.1 ≤ x ∧ x < r.2) ↔
          ((a ≤ x ∧ x < b) ∨ (c ≤ x ∧ x < d))) := by
  refine ⟨merge_ranges_idempotent_of_nonneg, ?_⟩
  intro a b c d ha hab hc hcd hov₁ hov₂
  rw [merge_ranges_pair a b c d ha hab hc hcd hov₁ hov₂]
  refine ⟨by simp, ?_⟩
  intro x
  simp only [List.mem_singleton, exists_eq_left, min_le_iff, lt_max_iff]
  omega

/-- C4 (witness): the amended theorem applied at concrete inputs:
idempotence on `[(0,2),(1,3)]` and the pair property for the
overlapping pair `(0,2)`, `(1,3)`. -/
theorem merge_ranges_idempotent_and_merges_pairs_witness :
    merge_ranges (merge_ranges [((0 : Int), 2), (1, 3)])
      = merge_ranges [((0 : Int), 2), (1, 3)] ∧
    (merge_ranges [((0 : Int), 2), (1, 3)]).length < 2 :=
  ⟨merge_ranges_idempotent_and_merges_pairs.1 [((0 : Int), 2), (1, 3)] (by decide),
   (merge_ranges_idempotent_and_merges_pairs.2 0 2 1 3 (by decide) (by decide)
      (by decide) (by decide) (by decide) (by decide)).1⟩

/-- C5 (amended): stripping merged ranges of clamped in-bounds coverage
`R` from a track of length `L` yields exactly `L - R` samples whenever
`L - R` is at or above the 1000 ms floor; when `L - R` is below the
floor the original track is returned unmodified. -/
theorem strip_segments_length_contract {α : Type} (audio : List α) (ranges : List Range) :
    (1000 ≤ (audio.length : Int)
        - clampedCoverage (audio.length : Int) (merge_ranges ranges) →
      ((strip_segments audio ranges).length : Int)
        = (audio.length : Int)
          - clampedCoverage (audio.length : Int) (merge_ranges ranges)) ∧
    ((audio.length : Int)
        - clampedCoverage (audio.length : Int) (merge_ranges ranges) < 1000 →
      strip_segments audio ranges = audio) := by
  by_cases hnil : ranges = []
  · subst hnil
    have hmr : merge_ranges ([] : List Range) = [] := by decide
    rw [hmr]
    simp [strip_segments, clampedCoverage]
  · have hlen := strip_segments_cleaned_length audio ranges
    constructor
    · intro hfloor
      rw [strip_segments, if_neg hnil]
      have : 1000 ≤ (cutRanges audio (audio.length : Int) 0 (merge_ranges ranges)).length := by
        omega
      simp only [if_pos this]
      omega
    · intro hfloor
      rw [strip_segments, if_neg hnil]
      have : ¬ 1000 ≤ (cutRanges audio (audio.length : Int) 0 (merge_ranges ranges)).length := by
        omega
      simp only [if_neg this]

/-- C5 (witness): the amended theorem applied to a 3-sample track with
one removal range: `3 - 1` is below the floor, so the original track
comes back. -/
theorem strip_segments_length_contract_witness :
    strip_segments [0, 1, 2] [((0 : Int), 1)] = [0, 1, 2] :=
  (strip_segments_length_contract [0, 1, 2] [((0 : Int), 1)]).2 (by decide)

/-- C5 (counterexample): at `L - R = 1000` exactly — which is not
*above* the floor — `strip_segments` returns the trimmed track, not the
original: a 1001-sample track minus the range `[0, 1)` comes back with
1000 samples. -/
theorem strip_segments_at_floor_returns_trimmed :
    ((List.range 1001).length : Int)
        - clampedCoverage ((List.range 1001).length : Int)
            (merge_ranges [((0 : Int), 1)]) = 1000 ∧
    strip_segments (List.range 1001) [((0 : Int), 1)] ≠ List.range 1001 := by
  have hmr : merge_ranges [((0 : Int), 1)] = [(0, 1)] := by decide
  have hlenrange : ((List.range 1001).length : Int) = 1001 := by
    simp [List.length_range]
  have hcov : clampedCoverage ((List.range 1001).length : Int)
      (merge_ranges [((0 : Int), 1)]) = 1 := by
    rw [hmr]
    norm_num [clampedCoverage, List.length_range]
  have h1000 : ((cutRanges (List.range 1001) ((List.range 1001).length : Int) 0
      (merge_ranges [((0 : Int), 1)])).length : Int) = 1000 := by
    rw [strip_segments_cleaned_length, hcov, hlenrange]
    norm_num
  refine ⟨by rw [hcov, hlenrange]; norm_num, ?_⟩
  intro heq
  have hne : ([((0 : Int), 1)] : List Range) ≠ [] := by simp
  have hfloor : 1000 ≤ (cutRanges (List.range 1001) ((List.range 1001).length : Int) 0
      (merge_ranges [((0 : Int), 1)])).length := by omega
  have hstrip : strip_segments (List.range 1001) [((0 : Int), 1)]
      = cutRanges (List.range 1001) ((List.range 1001).length : Int) 0
          (merge_ranges [((0 : Int), 1)]) := by
    unfold strip_segments
    rw [if_neg hne]
    exact if_pos hfloor
  rw [hstrip] at heq
  have hlens := congrArg List.length heq
  have hlen2 : (List.range 1001).length = 1001 := List.length_range 1001
  omega

/-! ## Theorems about the easing engine -/

/-- C7: every easing kind evaluates to `0` at `t = 0` and to exactly
`1` at `t = 1` (ease-out-expo through its `eq(t,1)` special case);
ease-out-back never goes below `0` on `[0, 1]` though it does overshoot
above `1` (e.g. at `t = 1/2`). -/
theorem easing_endpoints_and_back_bounds :
    (∀ k : EasingType,
      easeValue Real.cos (fun x => (2 : ℝ) ^ x) Real.pi k 0 = 0 ∧
      easeValue Real.cos (fun x => (2 : ℝ) ^ x) Real.pi k 1 = 1) ∧
    (∀ t : ℝ, 0 ≤ t → t ≤ 1 →
      0 ≤ easeValue Real.cos (fun x => (2 : ℝ) ^ x) Real.pi .ease_out_back t) ∧
    1 < easeValue Real.cos (fun x => (2 : ℝ) ^ x) Real.pi .ease_out_back (1 / 2) := by
  refine ⟨?_, ?_, ?_⟩
  · intro k
    cases k with
    | linear => exact ⟨rfl, rfl⟩
    | ease_out_cubic => constructor <;> norm_num [easeValue]
    | ease_out_quad => constructor <;> norm_num [easeValue]
    | ease_out_expo =>
        constructor
        · simp only [easeValue]
          rw [if_neg (by norm_num : (0 : ℝ) ≠ 1)]
          norm_num [Real.rpow_zero]
        · simp [easeValue]
    | ease_in_out_sine =>
        constructor <;> simp [easeValue, Real.cos_pi]
    | ease_out_back => constructor <;> norm_num [easeValue]
  · intro t h0 h1
    simp only [easeValue]
    have hu0 : (0 : ℝ) ≤ 1 - t := by linarith
    have hu1 : 1 - t ≤ 1 := by linarith
    have hcube_sq : (1 - t) ^ 3 ≤ (1 - t) ^ 2 :=
      pow_le_pow_of_le_one hu0 hu1 (by norm_num)
    have hcube_one : (1 - t) ^ 3 ≤ 1 := pow_le_one₀ hu0 hu1
    nlinarith [hcube_sq, hcube_one]
  · norm_num [easeValue]

/-- C7 (witness): the theorem applied at `t = 1/2` for the
ease-out-back lower bound, and at the `linear` kind for the endpoint
identities. -/
theorem easing_endpoints_and_back_bounds_witness :
    0 ≤ easeValue Real.cos (fun x => (2 : ℝ) ^ x) Real.pi .ease_out_back (1 / 2) ∧
    easeValue Real.cos (fun x => (2 : ℝ) ^ x) Real.pi .linear 0 = 0 :=
  ⟨easing_endpoints_and_back_bounds.2.1 (1 / 2) (by norm_num) (by norm_num),
   (easing_endpoints_and_back_bounds.1 .linear).1⟩

/-! ## Theorems about animation windows -/

/-- C1 (counterexample): at the example duration named in the claim,
`d = 0.2 s`, the announcement exit window starting at
`max(1.0, d - 0.5)` and ending at `d` is inverted (`start > end`); no
clamp degrades it to a zero-length window. -/
theorem announcement_exit_window_inverted_at_short_duration :
    image_slide_out_window (0.2 : ℚ) ∈ announcementWindows 0.2 ∧
    (image_slide_out_window (0.2 : ℚ)).1 = 1 ∧
    (image_slide_out_window (0.2 : ℚ)).2 = 0.2 ∧
    (image_slide_out_window (0.2 : ℚ)).2 < (image_slide_out_window (0.2 : ℚ)).1 := by
  refine ⟨by simp [announcementWindows], ?_, rfl, ?_⟩ <;>
    norm_num [image_slide_out_window]

/-- C1 (amended): for every duration `d ≥ 1.1 s` all announcement
animation windows, and the intro overlay window, satisfy
`0 ≤ start < end ≤ d`; for shorter durations the exit window with start
`max(1.0, d - 0.5)` can be inverted (see the counterexample) — the code
relies on the `between(t, start, end)` gate never firing rather than on
clamping. -/
theorem announcement_windows_valid_for_long_durations (d : ℚ) (hd : 1.1 ≤ d) :
    (∀ w ∈ announcementWindows d, 0 ≤ w.1 ∧ w.1 < w.2 ∧ w.2 ≤ d) ∧
    (0 ≤ (introOverlayWindow d).1 ∧
      (introOverlayWindow d).1 < (introOverlayWindow d).2 ∧
      (introOverlayWindow d).2 ≤ d) := by
  rw [show (1.1 : ℚ) = 11/10 by norm_num] at hd
  have h1 : (1 : ℚ) ≤ max 1 (d - 0.5) := le_max_left _ _
  have h2 : max (1 : ℚ) (d - 0.5) ≤ d := max_le (by linarith) (by linarith)
  constructor
  · intro w hw
    simp only [announcementWindows, List.mem_cons, List.not_mem_nil, or_false] at hw
    rcases hw with rfl | rfl | rfl | rfl | rfl | rfl
    · exact ⟨by norm_num [wave_slide_window], by norm_num [wave_slide_window],
        by norm_num [wave_slide_window]; linarith⟩
    · exact ⟨by norm_num [image_slide_in_window], by norm_num [image_slide_in_window],
        by norm_num [image_slide_in_window]; linarith⟩
    · refine ⟨by simp only [image_slide_out_window]; linarith, ?_, ?_⟩
      · simp only [image_slide_out_window]
        exact max_lt (by linarith) (by linarith)
      · simp only [image_slide_out_window]; linarith
    · exact ⟨by norm_num [highlight_slide_window], by norm_num [highlight_slide_window],
        by norm_num [highlight_slide_window]; linarith⟩
    · exact ⟨by norm_num [text_slide_in_window], by norm_num [text_slide_in_window],
        by norm_num [text_slide_in_window]; linarith⟩
    · refine ⟨?_, ?_, ?_⟩ <;>
        simp only [text_slide_out_window, announcement_overlay_end] <;> [linarith; linarith; linarith]
  · refine ⟨by norm_num [introOverlayWindow], ?_, ?_⟩
    · simp only [introOverlayWindow]
      exact lt_of_lt_of_le (by norm_num) h1
    · simp only [introOverlayWindow]; exact h2

/-- C1 (witness): the amended theorem at `d = 2 s`, extracted for the
exit window. -/
theorem announcement_windows_valid_witness :
    0 ≤ (image_slide_out_window (2 : ℚ)).1 ∧
    (image_slide_out_window (2 : ℚ)).1 < (image_slide_out_window (2 : ℚ)).2 ∧
    (image_slide_out_window (2 : ℚ)).2 ≤ 2 :=
  (announcement_windows_valid_for_long_durations 2 (by norm_num)).1
    (image_slide_out_window 2) (by simp [announcementWindows])

/-! ## Theorems about input-stream bookkeeping -/

/-- C2: in the with-overlay branch every stream reference of the
announcement filter graph addresses the input actually supplied at
that index, but in the no-overlay branch the graph still uses the
with-overlay indices: `[2:v]` (meant as the wave) addresses the
highlight, and `[3:v]` (meant as the highlight) addresses the audio
input, which carries no video stream at all. -/
theorem announcement_stream_refs_wrong_in_no_overlay_branch :
    streamRefsCorrect (announcementStreamRefs true) (announcementInputs true) ∧
    ¬ streamRefsCorrect (announcementStreamRefs false) (announcementInputs false) ∧
    (announcementInputs false)[2]? = some .highlight ∧
    (announcementInputs false)[3]? = some .audioTrack := by
  decide

/-! ## Theorems about QR-visibility intervals -/

/-- C3: when the intro (order 1) and closing (order 6) durations are
known and the final duration `D` is known with `d_c ≤ D`, the computed
QR-visible intervals are exactly `[(0, d_i), (D - d_c, D)]`; when a
needed duration is unknown, that interval is omitted. -/
theorem qr_intervals_contract :
    (∀ (metadata : List (Int × Option ℚ)) (di dc D : ℚ),
      find_duration metadata 1 = some di →
      find_duration metadata 6 = some dc →
      D ≠ 0 → dc ≤ D →
      qr_intervals metadata (some D) = [(0, di), (D - dc, D)]) ∧
    (∀ (metadata : List (Int × Option ℚ)) (fd : Option ℚ) (di : ℚ),
      find_duration metadata 1 = some di →
      find_duration metadata 6 = none →
      qr_intervals metadata fd = [(0, di)]) ∧
    (∀ (metadata : List (Int × Option ℚ)) (fd : Option ℚ),
      find_duration metadata 1 = none →
      find_duration metadata 6 = none →
      qr_intervals metadata fd = []) := by
  refine ⟨?_, ?_, ?_⟩
  · intro metadata di dc D hi hc hD hle
    have hmax : max (0 : ℚ) (D - dc) = D - dc := max_eq_right (by linarith)
    simp [qr_intervals, hi, hc, truthyDuration, hD, hmax]
  · intro metadata fd di hi hc
    cases fd <;> simp [qr_intervals, hi, hc]
  · intro metadata fd hi hc
    cases fd <;> simp [qr_intervals, hi, hc]

/-- C3 (witness): end-to-end scenario C — intro 3.0 s (order 1),
closing 2.0 s (order 6), six segments summing to 20.0 s — yields
exactly `[(0, 3), (18, 20)]`. -/
theorem qr_intervals_scenario_c :
    qr_intervals
      [(1, some 3), (2, some 4), (3, some 3), (4, some 4), (5, some 4), (6, some 2)]
      (some 20) = [(0, 3), (18, 20)] := by
  have h := qr_intervals_contract.1
    [(1, some 3), (2, some 4), (3, some 3), (4, some 4), (5, some 4), (6, some 2)]
    3 2 20 (by decide) (by decide) (by norm_num) (by norm_num)
  rw [show (18 : ℚ) = 20 - 2 by norm_num]
  exact h

/-! ## Theorems about scratch-directory cleanup -/

/-- C6 (counterexample): `render_announcement` never removes its
scratch directory — neither deferred removal on success nor immediate
removal on encoder failure happens. -/
theorem announcement_never_cleans_up :
    announcementCleanup .success ≠ .deferredAfterResponse ∧
    announcementCleanup .encoderFailed ≠ .immediate ∧
    announcementCleanup .success = .skipped := by
  decide

/-- C6 (amended): the closing render and both concatenation endpoints
implement the required policy — removal deferred until after the
response has streamed on success, immediate removal on every failure —
but the announcement render never removes its scratch directory on any
path. -/
theorem cleanup_policy_holds_except_announcement :
    (∀ o : RequestOutcome,
      closingCleanup o = specCleanupPolicy o ∧
      concatenateCleanup o = specCleanupPolicy o ∧
      concatenateMultipartCleanup o = specCleanupPolicy o) ∧
    (∀ o : RequestOutcome, announcementCleanup o = .skipped) := by
  refine ⟨fun o => ?_, fun o => rfl⟩
  cases o <;> exact ⟨rfl, rfl, rfl⟩

/-! ## Theorems about overlay-generation fallback -/

/-- C8 (counterexample): for the announcement render the claim fails:
at the concrete outcome of a raised rasterizer exception the guard does
demote the failure to "no overlay", but the render then proceeds with
the no-overlay encoder invocation whose filter graph is mis-indexed —
`[3:v]`, meant as the highlight, addresses the audio input, which
carries no video stream — so that invocation cannot succeed and no
output video is produced. -/
theorem announcement_overlay_fallback_hits_misindexed_graph :
    announcementOverlayGuard (.raised "raster library unavailable") = .ok none ∧
    announcementEncoderInputs none = announcementInputs false ∧
    (3, StreamSrc.highlight) ∈ announcementStreamRefs false ∧
    (announcementInputs false)[3]? = some .audioTrack ∧
    ¬ streamRefsCorrect (announcementStreamRefs false) (announcementInputs false) := by
  exact ⟨rfl, rfl, by decide, by decide, by decide⟩

/-- C8 (amended): the overlay guards of the announcement and closing
renders never propagate an error — a raised exception, a missing file,
or a zero-byte file all demote to the `none` ("no overlay") result and
the render proceeds with the no-overlay encoder invocation.  The
closing fallback invocation is correctly indexed, so that render still
produces an output video; the announcement fallback invocation is
mis-indexed (the C2 stream-index bug), so there the request fails at
the encoder instead of producing an output. -/
theorem overlay_failure_demoted_never_propagated :
    (∀ o : OverlayOutcome, ∃ r, announcementOverlayGuard o = .ok r) ∧
    (∀ o : OverlayOutcome, ∃ r, closingOverlayGuard o = .ok r) ∧
    (∀ msg, announcementOverlayGuard (.raised msg) = .ok none ∧
      closingOverlayGuard (.raised msg) = .ok none) ∧
    (∀ path sizeBytes, announcementOverlayGuard (.generated path false sizeBytes) = .ok none ∧
      closingOverlayGuard (.generated path false sizeBytes) = .ok none) ∧
    (∀ path fileExists, announcementOverlayGuard (.generated path fileExists 0) = .ok none ∧
      closingOverlayGuard (.generated path fileExists 0) = .ok none) ∧
    (announcementEncoderInputs none = announcementInputs false ∧
      ¬ streamRefsCorrect (announcementStreamRefs false) (announcementInputs false)) ∧
    streamRefsCorrect (closingStreamRefs false) (closingInputs false) := by
  refine ⟨?_, ?_, ?_, ?_, ?_, ⟨rfl, by decide⟩, by decide⟩
  · intro o
    cases o with
    | raised msg => exact ⟨none, rfl⟩
    | generated path fileExists sizeBytes =>
        by_cases h : fileExists ∧ sizeBytes ≠ 0
        · exact ⟨some path, by simp [announcementOverlayGuard, h]⟩
        · exact ⟨none, by simp [announcementOverlayGuard, h]⟩
  · intro o
    cases o with
    | raised msg => exact ⟨none, rfl⟩
    | generated path fileExists sizeBytes =>
        by_cases h : fileExists ∧ sizeBytes ≠ 0
        · exact ⟨some path, by simp [closingOverlayGuard, h]⟩
        · exact ⟨none, by simp [closingOverlayGuard, h]⟩
  · intro msg; exact ⟨rfl, rfl⟩
  · intro path sizeBytes
    constructor <;> simp [announcementOverlayGuard, closingOverlayGuard]
  · intro path fileExists
    constructor <;> simp [announcementOverlayGuard, closingOverlayGuard]

/-! ## Theorems about the announcement overlay rasterizer -/

/-- C9 (counterexample): called with all text fields empty, the
rasterizer itself does not return `None`: it returns a minimal-preset
artifact. -/
theorem rasterizer_returns_artifact_on_empty_fields :
    generate_announcement_overlay_png "" "" ≠ none ∧
    generate_announcement_overlay_png "" ""
      = some (create_announcement_overlay "" "" "overlay.png") ∧
    (create_announcement_overlay "" "" "overlay.png").height
      = ANNOUNCEMENT_BASE_HEIGHT_MIN := by
  refine ⟨by simp [generate_announcement_overlay_png], rfl, by rfl⟩

/-- C9 (amended): the render reaches the valid "no overlay" state on
all-empty fields because the endpoint never invokes the rasterizer
(`has_overlay = bool(title or description)` is false), and only then:
the request-level overlay is `none` exactly when both fields are empty.
The rasterizer itself, if invoked with empty fields, returns a
minimal-preset artifact rather than `None`. -/
theorem no_overlay_state_on_empty_fields :
    announcementOverlayForRequest "" "" = none ∧
    (∀ title description : String,
      announcementOverlayForRequest title description = none ↔
        (title = "" ∧ description = "")) ∧
    (create_announcement_overlay "" "" "overlay.png").height
      = ANNOUNCEMENT_BASE_HEIGHT_MIN := by
  refine ⟨rfl, ?_, rfl⟩
  intro title description
  by_cases ht : title = "" <;> by_cases hd : description = "" <;>
    simp [announcementOverlayForRequest, announcementRequestsOverlay,
      generate_announcement_overlay_png, ht, hd]

/-! ## Theorems about the watermark layer policy -/

/-- C10: an empty interval list skips the QR banner layer entirely (no
error even when the banner asset is absent); `None` or a non-empty list
makes the banner mandatory — if it is absent `FileNotFoundError` fails
the whole pass — while a missing logo only degrades the watermark to a
plan without the logo layer, never an error. -/
theorem watermark_qr_policy :
    (∀ logoFound qrBannerFound : Bool,
      apply_watermark_to_video logoFound qrBannerFound (some [])
        = .ok { logoLayer := logoFound, qrLayer := false }) ∧
    (∀ logoFound : Bool,
      apply_watermark_to_video logoFound false none = .error .qrBannerMissing) ∧
    (∀ (logoFound : Bool) (l : List (ℚ × ℚ)), l ≠ [] →
      apply_watermark_to_video logoFound false (some l) = .error .qrBannerMissing) ∧
    (∀ (qrBannerFound : Bool) (iv : Option (List (ℚ × ℚ))),
      ∃ plan, apply_watermark_to_video false qrBannerFound iv ≠ .error .qrBannerMissing →
        apply_watermark_to_video false qrBannerFound iv = .ok plan ∧ plan.logoLayer = false) := by
  refine ⟨?_, ?_, ?_, ?_⟩
  · intro logoFound qrBannerFound
    simp [apply_watermark_to_video, qr_overlay_active]
  · intro logoFound
    simp [apply_watermark_to_video, qr_overlay_active]
  · intro logoFound l hl
    have : 0 < l.length := List.length_pos.mpr hl
    simp [apply_watermark_to_video, qr_overlay_active, this]
  · intro qrBannerFound iv
    by_cases hact : qr_overlay_active iv
    · cases qrBannerFound with
      | true =>
          exact ⟨{ logoLayer := false, qrLayer := true }, fun _ => by
            simp [apply_watermark_to_video, hact]⟩
      | false =>
          refine ⟨{ logoLayer := false, qrLayer := false }, fun hne => absurd ?_ hne⟩
          simp [apply_watermark_to_video, hact]
    · exact ⟨{ logoLayer := false, qrLayer := false }, fun _ => by
        simp [apply_watermark_to_video, hact]⟩

/-- C10 (witness): the theorem applied at concrete inputs: logo found,
banner absent, one non-empty interval list — the pass fails with
`FileNotFoundError`; and an empty interval list with the banner absent
succeeds without the QR layer. -/
theorem watermark_qr_policy_witness :
    apply_watermark_to_video true false (some [(0, 3)]) = .error .qrBannerMissing ∧
    apply_watermark_to_video true false (some [])
      = .ok { logoLayer := true, qrLayer := false } :=
  ⟨watermark_qr_policy.2.2.1 true [(0, 3)] (by simp),
   watermark_qr_policy.1 true false⟩

end VideoBuilder
